import Mathlib

/-
Shallow embedding of src/advanced-vector/vector.h (RawMemory<T> / Vector<T>).

A raw buffer is a list of slots; a slot is `some v` when it holds a live,
constructed element and `none` when it is raw (uninitialized) memory.  The
buffer length is the RawMemory capacity.  Construction, destruction and
assignment of elements are modelled by explicit primitives that signal
undefined behaviour (`CppErr.ub`) when the C++ code would have it
(constructing over a live object, destroying or reading a dead slot,
dereferencing outside the allocation, invalid iterator ranges), signal
`CppErr.assertFail` where the source has an `assert` that fails in a debug
build, and `CppErr.thrown` for a C++ exception escaping an element copy
constructor.  Machine arithmetic on `size_t` is `Nat`; the one place the
source underflows a `size_t` subtraction is modelled with an explicit
`% 2^64`.
-/

namespace AdvVec

/-- Width of `size_t`: subtraction in the source wraps modulo `2 ^ 64`. -/
def W : Nat := 2 ^ 64

/-- Outcomes of running a piece of the C++ code symbolically: undefined
behaviour, a failed debug assertion, or a C++ exception thrown by an element
copy constructor. -/
inductive CppErr : Type
  | ub
  | assertFail
  | thrown
deriving DecidableEq

/-- A raw buffer: one entry per slot of the allocation, `some v` for a live
element, `none` for uninitialized memory.  List length = RawMemory capacity. -/
abbrev Buf (α : Type) := List (Option α)

/-- The live element stored at slot `i`, if slot `i` exists and is live. -/
def slot? {α : Type} (b : Buf α) (i : Nat) : Option α := (b[i]?).join

/-- State of a `Vector<T>`: its RawMemory buffer and the `size_` member. -/
structure VecState (α : Type) where
  buf : Buf α
  size : Nat
deriving DecidableEq

/-- Reading the element at slot `i` (dereferencing `buffer_ + i`): undefined
behaviour outside the allocation or on a dead slot. -/
def readAt {α : Type} (b : Buf α) (i : Nat) : Except CppErr α :=
  match b[i]? with
  | some (some v) => .ok v
  | _ => .error .ub

/-- Placement-new of a copy of `v` into slot `i` when the element copy
constructor may throw (`failOn v = true` models `T(v)` throwing).  Writing
outside the allocation or over a live object is undefined behaviour. -/
def constructAtF {α : Type} (failOn : α → Bool) (b : Buf α) (i : Nat) (v : α) :
    Except CppErr (Buf α) :=
  if failOn v then .error .thrown
  else
    match b[i]? with
    | some none => .ok (b.set i (some v))
    | _ => .error .ub

/-- Placement-new of `v` into slot `i` for an element whose construction does
not throw. -/
def constructAt {α : Type} (b : Buf α) (i : Nat) (v : α) : Except CppErr (Buf α) :=
  constructAtF (fun _ => false) b i v

/-- Running the destructor of the element in slot `i` (`buf->~T()`):
undefined behaviour if the slot is dead or outside the allocation. -/
def destroyAt {α : Type} (b : Buf α) (i : Nat) : Except CppErr (Buf α) :=
  match b[i]? with
  | some (some _) => .ok (b.set i none)
  | _ => .error .ub

/-- Assignment `slot i = v`: only a live object may be assigned to. -/
def assignAt {α : Type} (b : Buf α) (i : Nat) (v : α) : Except CppErr (Buf α) :=
  match b[i]? with
  | some (some _) => .ok (b.set i (some v))
  | _ => .error .ub

/-- Model of `std::destroy_n(b + s, n)`. -/
def destroyN {α : Type} (b : Buf α) (s : Nat) : Nat → Except CppErr (Buf α)
  | 0 => .ok b
  | n + 1 => do
    let b' ← destroyAt b s
    destroyN b' (s + 1) n

/-- Model of `std::uninitialized_move_n` / `std::uninitialized_copy_n` from
`src + s` into `dst + d`, `n` elements.  (In this value-level model a move
constructs the same value as a copy; the moved-from source object stays live
until it is destroyed.)  When a copy constructor throws (`failOn`), the
primitive destroys the destination elements it already constructed —
semantically the destination buffer is exactly the caller's pre-call value —
and propagates the exception, as the standard algorithms do. -/
def relocateNF {α : Type} (failOn : α → Bool) (src : Buf α) (s : Nat)
    (dst : Buf α) (d : Nat) : Nat → Except CppErr (Buf α)
  | 0 => .ok dst
  | n + 1 => do
    let v ← readAt src s
    let dst' ← constructAtF failOn dst d v
    relocateNF failOn src (s + 1) dst' (d + 1) n

/-- Model of `std::uninitialized_value_construct_n(b + s, n)` writing the
value-initialized element `v` (for the model's element types, `default`). -/
def valueConstructN {α : Type} (b : Buf α) (s : Nat) (v : α) :
    Nat → Except CppErr (Buf α)
  | 0 => .ok b
  | n + 1 => do
    let b' ← constructAt b s v
    valueConstructN b' (s + 1) v n

/-- The loop of `std::move(first, last, dest)`: `n` move-assignments, reading
`b + s + k` and assigning into `b + d + k`, in increasing `k`. -/
def moveSeg {α : Type} (b : Buf α) (s d : Nat) : Nat → Except CppErr (Buf α)
  | 0 => .ok b
  | n + 1 => do
    let v ← readAt b s
    let b' ← assignAt b d v
    moveSeg b' (s + 1) (d + 1) n

/-- Model of `std::move(b + first, b + last, b + dest)` inside one buffer; a range with
`last < first` never terminates and reads past the buffer — undefined
behaviour. -/
def moveRange {α : Type} (b : Buf α) (first last dest : Nat) :
    Except CppErr (Buf α) :=
  if last < first then .error .ub else moveSeg b first dest (last - first)

/-- Model of `std::move_backward(b + s, b + s + n, b + d + n)`: move-assigns
`n` elements one slot pattern `b[d + k] = b[s + k]`, processing the highest
`k` first, the order that makes the right-shift in `InsertWithoutAlloc`
read each value before overwriting it. -/
def moveBackward {α : Type} (b : Buf α) (s d : Nat) : Nat → Except CppErr (Buf α)
  | 0 => .ok b
  | n + 1 => do
    let v ← readAt b (s + n)
    let b' ← assignAt b (d + n) v
    moveBackward b' s d n

/-- A default-constructed `Vector()`: null buffer, capacity 0, size 0. -/
def vecNew (α : Type) : VecState α := ⟨[], 0⟩

/-- Model of `explicit Vector(size_t size)`: allocate exactly `size` slots and
value-construct all of them. -/
def vecOfSize {α : Type} [Inhabited α] (n : Nat) : Except CppErr (VecState α) := do
  let b ← valueConstructN (List.replicate n (none : Option α)) 0 default n
  .ok ⟨b, n⟩

/-- Model of `Vector::Reserve(new_capacity)`: no-op unless the capacity grows; else
allocate `new_capacity` raw slots, relocate the `size_` live elements into
them (`UninitializedNewData`, whose move and copy branches construct the same
values here), destroy the originals, and swap buffers. -/
def Reserve {α : Type} (st : VecState α) (newCap : Nat) :
    Except CppErr (VecState α) :=
  if newCap ≤ st.buf.length then .ok st
  else do
    let nd ← relocateNF (fun _ => false) st.buf 0
      (List.replicate newCap (none : Option α)) 0 st.size
    let _ ← destroyN st.buf 0 st.size
    .ok ⟨nd, st.size⟩

/-- Model of `Vector::Resize(new_size)`.  Mirrors the source exactly: in the growth
branch the value-construction starts at `data_.GetAddress()` — slot 0, not
slot `size_` — and the other branch destroys `size_ - new_size` slots, a
`size_t` subtraction that wraps when `new_size > size_`. -/
def Resize {α : Type} [Inhabited α] (st : VecState α) (newSize : Nat) :
    Except CppErr (VecState α) :=
  if st.buf.length < newSize then do
    let st' ← Reserve st newSize
    let b ← valueConstructN st'.buf 0 default (newSize - st.size)
    .ok ⟨b, newSize⟩
  else do
    let b ← destroyN st.buf newSize ((st.size + W - newSize) % W)
    .ok ⟨b, newSize⟩

/-- Model of `Vector::PopBack()`: destroys the element at `data_ + size_ - 1` and
decrements `size_`.  There is no assertion in this function; on an empty
vector the pointer `data_.GetAddress() + size_ - 1` is before the start of
the allocation — undefined behaviour. -/
def PopBack {α : Type} (st : VecState α) : Except CppErr (VecState α) :=
  if st.size = 0 then .error .ub
  else do
    let b ← destroyN st.buf (st.size - 1) 1
    .ok ⟨b, st.size - 1⟩

/-- Model of `Vector::operator[]`: `assert(index < size_)`, then
`RawMemory::operator[]` with its own `assert(index < capacity_)`, then the
dereference. -/
def getIdx {α : Type} (st : VecState α) (i : Nat) : Except CppErr α :=
  if i < st.size then
    if i < st.buf.length then
      match st.buf[i]? with
      | some (some v) => .ok v
      | _ => .error .ub
    else .error .assertFail
  else .error .assertFail

/-- Model of `Vector::Erase(pos)`: `std::move(begin() + pos + 1, end(), begin() + pos)`,
destroy the vacated last slot, decrement `size_`, return `begin() + pos`
(modelled as the index `pos`).  No assertion guards `pos`; an out-of-range
position makes the `std::move` range invalid — undefined behaviour. -/
def Erase {α : Type} (st : VecState α) (pos : Nat) :
    Except CppErr (VecState α × Nat) := do
  let b ← moveRange st.buf (pos + 1) st.size pos
  let b' ← destroyN b (st.size - 1) 1
  .ok (⟨b', st.size - 1⟩, pos)

/-- Model of `Vector::InsertWithoutAlloc` (the `size_ < capacity` branch of
`Emplace`), with `failOn` modelling a throwing element copy constructor for
`auto tmp = T(args...)` and the `pos == size_` placement-new.  The move
operations on `T` do not throw. -/
def InsertWithoutAllocF {α : Type} (failOn : α → Bool) (st : VecState α)
    (pos : Nat) (v : α) : Except CppErr (VecState α) :=
  if st.size = pos then do
    let b ← constructAtF failOn st.buf pos v
    .ok ⟨b, st.size⟩
  else
    -- auto tmp = T(std::forward<Args>(args)...);
    if failOn v then .error .thrown
    else
      -- new (end()) T(std::forward<T>(*(end() - 1)));  end() - 1 is before
      -- the allocation when size_ == 0: undefined behaviour
      if st.size = 0 then .error .ub
      else do
        let last ← readAt st.buf (st.size - 1)
        let b ← constructAt st.buf st.size last
        -- std::move_backward(begin() + pos, end() - 1, end()); an empty-or-
        -- negative range with first past last is undefined behaviour
        if st.size - 1 < pos then .error .ub
        else do
          let b' ← moveBackward b pos (pos + 1) (st.size - 1 - pos)
          -- data_[pos] = std::move(tmp); RawMemory::operator[] has
          -- assert(index < capacity_)
          if pos < st.buf.length then do
            let b'' ← assignAt b' pos v
            .ok ⟨b'', st.size⟩
          else .error .assertFail

/-- One `try { relocate a segment } catch (...) { destroy that segment of the
old buffer }` block of `InsertWithAlloc`.  On an element-constructor
exception (`thrown`) the handler runs `std::destroy_n` on the given segment
of the OLD buffer and execution falls through — the source has no rethrow.
Undefined behaviour is not a C++ exception, so it passes through uncaught.
On success the pair (old buffer, updated new buffer) continues unchanged. -/
def catchBlock {α : Type} (tryRes : Except CppErr (Buf α)) (oldBuf : Buf α)
    (segStart segLen : Nat) (ndOld : Buf α) : Except CppErr (Buf α × Buf α) :=
  match tryRes with
  | .ok nd' => .ok (oldBuf, nd')
  | .error .thrown => do
      let b' ← destroyN oldBuf segStart segLen
      .ok (b', ndOld)
  | .error e => .error e

/-- Model of `Vector::InsertWithAlloc` (the `size_ == capacity` branch of `Emplace`).
Mirrors the source: the new buffer has `size_ == 0 ? 1 : 2 * size_` slots,
the new element is constructed at its final slot first, then the elements
before and after `pos` are relocated, each inside a `try`/`catch` block
(`catchBlock`); finally `destroy_n(begin(), size_)` and the buffer swap run
unconditionally. -/
def InsertWithAllocF {α : Type} (failOn : α → Bool) (st : VecState α)
    (pos : Nat) (v : α) : Except CppErr (VecState α) := do
  let countPrev := pos                -- std::distance(cbegin(), pos)
  let countNext := st.size - pos      -- std::distance(pos, cend())
  let cap := if st.size = 0 then 1 else 2 * st.size
  let nd ← constructAtF failOn (List.replicate cap (none : Option α)) pos v
  -- try { uninitialized_move_n(begin(), count_prev, new_data.GetAddress()) }
  -- catch (...) { std::destroy_n(begin(), count_prev); }
  let s1 ← catchBlock (relocateNF failOn st.buf 0 nd 0 countPrev)
    st.buf 0 countPrev nd
  -- try { uninitialized_move_n(begin() + count_prev, count_next,
  --                            new_data.GetAddress() + count_prev + 1) }
  -- catch (...) { std::destroy_n(begin() + count_prev, count_next); }
  let s2 ← catchBlock
    (relocateNF failOn s1.1 countPrev s1.2 (countPrev + 1) countNext)
    s1.1 countPrev countNext s1.2
  let _ ← destroyN s2.1 0 st.size
  .ok ⟨s2.2, st.size⟩

/-- Model of `Vector::Emplace(pos, args...)` with a possibly-throwing element copy
constructor: dispatch on `size_ == Capacity()`, then `++size_` and return
`begin() + pos_idx` (modelled as the index).  A position outside
`[begin(), end()]` is an invalid iterator — undefined behaviour. -/
def EmplaceF {α : Type} (failOn : α → Bool) (st : VecState α) (pos : Nat)
    (v : α) : Except CppErr (VecState α × Nat) :=
  if st.size < pos then .error .ub
  else do
    let st' ←
      if st.size = st.buf.length then InsertWithAllocF failOn st pos v
      else InsertWithoutAllocF failOn st pos v
    .ok (⟨st'.buf, st'.size + 1⟩, pos)

/-- Model of `Vector::Emplace` for an element type whose construction never throws. -/
def Emplace {α : Type} (st : VecState α) (pos : Nat) (v : α) :
    Except CppErr (VecState α × Nat) :=
  EmplaceF (fun _ => false) st pos v

/-- Model of `Vector::Insert(pos, value)`, which simply forwards to `Emplace`. -/
def Insert {α : Type} (st : VecState α) (pos : Nat) (v : α) :
    Except CppErr (VecState α × Nat) :=
  EmplaceF (fun _ => false) st pos v

/-- Model of `Vector::EmplaceBack(args...)`, which is `Emplace(end(), args...)`. -/
def EmplaceBack {α : Type} (st : VecState α) (v : α) :
    Except CppErr (VecState α × Nat) :=
  Emplace st st.size v

/-- Model of `Vector::PushBack(value)`, which forwards to `EmplaceBack`. -/
def PushBack {α : Type} (st : VecState α) (v : α) :
    Except CppErr (VecState α × Nat) :=
  EmplaceBack st v

/-- Model of `Vector(Vector&& other)`: `std::exchange` of the RawMemory and of
`size_`.  Returns (constructed vector, source after the move). -/
def moveCtor {α : Type} (other : VecState α) : VecState α × VecState α :=
  (⟨other.buf, other.size⟩, ⟨[], 0⟩)

/-- Model of `operator=(Vector&& rhs)` for distinct objects (`this != &rhs`): the same
two `std::exchange`s.  Returns (assigned-to vector, source after the move). -/
def moveAssign {α : Type} (_self other : VecState α) : VecState α × VecState α :=
  (⟨other.buf, other.size⟩, ⟨[], 0⟩)

/-- The class invariant of `Vector<T>`: `size_` live elements at the start of
the buffer, raw memory above them. -/
abbrev WF {α : Type} (st : VecState α) : Prop :=
  st.size ≤ st.buf.length ∧
  (∀ i, i < st.size → (slot? st.buf i).isSome = true) ∧
  (∀ i, i < st.buf.length → st.size ≤ i → slot? st.buf i = none)

/-- The sequence of (live) element values a vector holds, index 0 first. -/
def seqOf {α : Type} (st : VecState α) : List (Option α) :=
  (List.range st.size).map (slot? st.buf)

section BasicLemmas

variable {α : Type}

theorem exc_bind_ok {β γ : Type} (a : β) (f : β → Except CppErr γ) :
    (Except.ok a >>= f) = f a := rfl

theorem exc_bind_err {β γ : Type} (e : CppErr) (f : β → Except CppErr γ) :
    ((Except.error e : Except CppErr β) >>= f) = Except.error e := rfl

theorem slot?_of_le_length {b : Buf α} {i : Nat} (h : b.length ≤ i) :
    slot? b i = none := by
  unfold slot?
  rw [List.getElem?_eq_none h]
  rfl

theorem slot?_eq_some_iff {b : Buf α} {i : Nat} {v : α} :
    slot? b i = some v ↔ b[i]? = some (some v) := by
  unfold slot?
  cases h : b[i]? with
  | none => simp [Option.join]
  | some o => cases o <;> simp [Option.join]

theorem slot?_isSome_iff {b : Buf α} {i : Nat} :
    (slot? b i).isSome = true ↔ ∃ v, slot? b i = some v :=
  Option.isSome_iff_exists

theorem slot?_set_self {b : Buf α} {i : Nat} (h : i < b.length) (o : Option α) :
    slot? (b.set i o) i = o := by
  unfold slot?
  rw [List.getElem?_set_self (by simpa using h)]
  cases o <;> rfl

theorem slot?_set_ne {b : Buf α} {i j : Nat} (h : i ≠ j) (o : Option α) :
    slot? (b.set i o) j = slot? b j := by
  unfold slot?
  rw [List.getElem?_set_ne h]

theorem slot?_replicate_none (n i : Nat) :
    slot? (List.replicate n (none : Option α)) i = none := by
  unfold slot?
  rw [List.getElem?_replicate]
  split <;> rfl

theorem readAt_ok {b : Buf α} {i : Nat} {v : α} (h : slot? b i = some v) :
    readAt b i = .ok v := by
  unfold readAt
  rw [slot?_eq_some_iff.mp h]

theorem constructAtF_false {failOn : α → Bool} {b : Buf α} {i : Nat} {v : α}
    (hf : failOn v = false) (hlen : i < b.length) (hdead : slot? b i = none) :
    constructAtF failOn b i v = .ok (b.set i (some v)) := by
  unfold constructAtF
  rw [hf]
  simp only [Bool.false_eq_true, if_false]
  unfold slot? at hdead
  cases hb : b[i]? with
  | none =>
    rw [List.getElem?_eq_getElem hlen] at hb
    exact Option.noConfusion hb
  | some o =>
    cases o with
    | none => rfl
    | some w =>
      rw [hb] at hdead
      simp [Option.join] at hdead

theorem constructAt_ok {b : Buf α} {i : Nat} (hlen : i < b.length)
    (hdead : slot? b i = none) (v : α) :
    constructAt b i v = .ok (b.set i (some v)) :=
  constructAtF_false rfl hlen hdead

theorem destroyAt_ok {b : Buf α} {i : Nat} {v : α} (h : slot? b i = some v) :
    destroyAt b i = .ok (b.set i none) := by
  unfold destroyAt
  rw [slot?_eq_some_iff.mp h]

theorem destroyAt_err {b : Buf α} {i : Nat} (h : slot? b i = none) :
    destroyAt b i = .error .ub := by
  unfold destroyAt
  unfold slot? at h
  cases hb : b[i]? with
  | none => rfl
  | some o =>
    cases o with
    | none => rfl
    | some w => rw [hb] at h; simp [Option.join] at h

theorem assignAt_ok {b : Buf α} {i : Nat} {w : α} (h : slot? b i = some w)
    (v : α) : assignAt b i v = .ok (b.set i (some v)) := by
  unfold assignAt
  rw [slot?_eq_some_iff.mp h]

theorem destroyN_err {b : Buf α} {s n : Nat} {e : CppErr}
    (h : destroyAt b s = .error e) (hn : n ≠ 0) :
    destroyN b s n = .error e := by
  cases n with
  | zero => exact absurd rfl hn
  | succ m =>
    unfold destroyN
    rw [h, exc_bind_err]

theorem slot?_lt_length {b : Buf α} {i : Nat} {v : α} (h : slot? b i = some v) :
    i < b.length := by
  by_contra hge
  rw [slot?_of_le_length (by omega)] at h
  exact Option.noConfusion h

end BasicLemmas

section LoopLemmas

variable {α : Type}

theorem destroyN_spec :
    ∀ (n : Nat) (b : Buf α) (s : Nat),
      (∀ i, i < n → (slot? b (s + i)).isSome = true) →
      ∃ b', destroyN b s n = .ok b' ∧ b'.length = b.length ∧
        (∀ j, j < s ∨ s + n ≤ j → slot? b' j = slot? b j) ∧
        (∀ i, i < n → slot? b' (s + i) = none) := by
  intro n
  induction n with
  | zero =>
    intro b s _
    exact ⟨b, rfl, rfl, fun j _ => rfl, fun i hi => absurd hi (by omega)⟩
  | succ m ih =>
    intro b s hlive
    obtain ⟨v, hv⟩ := slot?_isSome_iff.mp (by simpa using hlive 0 (by omega))
    have hslen : s < b.length := slot?_lt_length hv
    have hdes : destroyAt b s = .ok (b.set s none) := destroyAt_ok hv
    have hlive' : ∀ i, i < m → (slot? (b.set s none) (s + 1 + i)).isSome = true := by
      intro i hi
      rw [slot?_set_ne (by omega)]
      have e : s + 1 + i = s + (i + 1) := by omega
      rw [e]
      exact hlive (i + 1) (by omega)
    obtain ⟨b', hok, hlen, hframe, hdead⟩ := ih (b.set s none) (s + 1) hlive'
    refine ⟨b', ?_, ?_, ?_, ?_⟩
    · simp only [destroyN]
      rw [hdes, exc_bind_ok]
      exact hok
    · rw [hlen, List.length_set]
    · intro j hj
      have h1 : slot? b' j = slot? (b.set s none) j := by
        apply hframe
        omega
      rw [h1, slot?_set_ne (by omega)]
    · intro i hi
      cases i with
      | zero =>
        have h1 : slot? b' (s + 0) = slot? (b.set s none) (s + 0) := by
          apply hframe
          omega
        rw [h1]
        simpa using slot?_set_self hslen (none : Option α)
      | succ k =>
        have e : s + (k + 1) = s + 1 + k := by omega
        rw [e]
        exact hdead k (by omega)

theorem relocateNF_spec (failOn : α → Bool) :
    ∀ (n : Nat) (src : Buf α) (s : Nat) (dst : Buf α) (d : Nat),
      (∀ i, i < n → ∃ v, slot? src (s + i) = some v ∧ failOn v = false) →
      (∀ i, i < n → d + i < dst.length ∧ slot? dst (d + i) = none) →
      ∃ dst', relocateNF failOn src s dst d n = .ok dst' ∧
        dst'.length = dst.length ∧
        (∀ j, j < d ∨ d + n ≤ j → slot? dst' j = slot? dst j) ∧
        (∀ i, i < n → slot? dst' (d + i) = slot? src (s + i)) := by
  intro n
  induction n with
  | zero =>
    intro src s dst d _ _
    exact ⟨dst, rfl, rfl, fun j _ => rfl, fun i hi => absurd hi (by omega)⟩
  | succ m ih =>
    intro src s dst d hsrc hdst
    obtain ⟨v, hv0, hfv⟩ := hsrc 0 (by omega)
    have hv : slot? src s = some v := by simpa using hv0
    have hdlen : d < dst.length := by
      have := (hdst 0 (by omega)).1
      simpa using this
    have hddead : slot? dst d = none := by
      have := (hdst 0 (by omega)).2
      simpa using this
    have hcon := constructAtF_false hfv hdlen hddead
    have hsrc' : ∀ i, i < m → ∃ w, slot? src (s + 1 + i) = some w ∧ failOn w = false := by
      intro i hi
      have e : s + 1 + i = s + (i + 1) := by omega
      rw [e]
      exact hsrc (i + 1) (by omega)
    have hdst' : ∀ i, i < m →
        d + 1 + i < (dst.set d (some v)).length ∧
        slot? (dst.set d (some v)) (d + 1 + i) = none := by
      intro i hi
      constructor
      · rw [List.length_set]
        have := (hdst (i + 1) (by omega)).1
        omega
      · rw [slot?_set_ne (by omega)]
        have e : d + 1 + i = d + (i + 1) := by omega
        rw [e]
        exact (hdst (i + 1) (by omega)).2
    obtain ⟨dst', hok, hlen, hframe, himg⟩ := ih src (s + 1) (dst.set d (some v)) (d + 1) hsrc' hdst'
    refine ⟨dst', ?_, ?_, ?_, ?_⟩
    · simp only [relocateNF]
      rw [readAt_ok hv, exc_bind_ok, hcon, exc_bind_ok]
      exact hok
    · rw [hlen, List.length_set]
    · intro j hj
      have h1 : slot? dst' j = slot? (dst.set d (some v)) j := by
        apply hframe
        omega
      rw [h1, slot?_set_ne (by omega)]
    · intro i hi
      cases i with
      | zero =>
        have h1 : slot? dst' (d + 0) = slot? (dst.set d (some v)) (d + 0) := by
          apply hframe
          omega
        rw [h1]
        have h2 : slot? (dst.set d (some v)) (d + 0) = some v := by
          simpa using slot?_set_self hdlen (some v)
        rw [h2]
        exact hv0.symm
      | succ k =>
        have e1 : d + (k + 1) = d + 1 + k := by omega
        have e2 : s + (k + 1) = s + 1 + k := by omega
        rw [e1, e2]
        exact himg k (by omega)

theorem moveSeg_shift :
    ∀ (n : Nat) (b : Buf α) (d : Nat),
      (∀ i, i < n → (slot? b (d + 1 + i)).isSome = true) →
      (∀ i, i < n → (slot? b (d + i)).isSome = true) →
      ∃ b', moveSeg b (d + 1) d n = .ok b' ∧ b'.length = b.length ∧
        (∀ j, j < d ∨ d + n ≤ j → slot? b' j = slot? b j) ∧
        (∀ i, i < n → slot? b' (d + i) = slot? b (d + 1 + i)) := by
  intro n
  induction n with
  | zero =>
    intro b d _ _
    exact ⟨b, rfl, rfl, fun j _ => rfl, fun i hi => absurd hi (by omega)⟩
  | succ m ih =>
    intro b d hsrc hdst
    obtain ⟨v, hv⟩ := slot?_isSome_iff.mp (by simpa using hsrc 0 (by omega))
    obtain ⟨w, hw⟩ := slot?_isSome_iff.mp (by simpa using hdst 0 (by omega))
    have hdlen : d < b.length := slot?_lt_length hw
    have hsrc' : ∀ i, i < m → (slot? (b.set d (some v)) (d + 1 + 1 + i)).isSome = true := by
      intro i hi
      rw [slot?_set_ne (by omega)]
      have e : d + 1 + 1 + i = d + 1 + (i + 1) := by omega
      rw [e]
      exact hsrc (i + 1) (by omega)
    have hdst' : ∀ i, i < m → (slot? (b.set d (some v)) (d + 1 + i)).isSome = true := by
      intro i hi
      rw [slot?_set_ne (by omega)]
      exact hsrc i (by omega)
    obtain ⟨b', hok, hlen, hframe, himg⟩ := ih (b.set d (some v)) (d + 1) hsrc' hdst'
    refine ⟨b', ?_, ?_, ?_, ?_⟩
    · simp only [moveSeg]
      rw [readAt_ok hv, exc_bind_ok, assignAt_ok hw v, exc_bind_ok]
      exact hok
    · rw [hlen, List.length_set]
    · intro j hj
      have h1 : slot? b' j = slot? (b.set d (some v)) j := by
        apply hframe
        omega
      rw [h1, slot?_set_ne (by omega)]
    · intro i hi
      cases i with
      | zero =>
        have h1 : slot? b' (d + 0) = slot? (b.set d (some v)) (d + 0) := by
          apply hframe
          omega
        rw [h1]
        have h2 : slot? (b.set d (some v)) (d + 0) = some v := by
          simpa using slot?_set_self hdlen (some v)
        rw [h2]
        simpa using hv.symm
      | succ k =>
        have e1 : d + (k + 1) = d + 1 + k := by omega
        have e2 : d + 1 + (k + 1) = d + 1 + 1 + k := by omega
        rw [e1, e2]
        have h3 := himg k (by omega)
        rw [h3, slot?_set_ne (by omega)]

theorem moveBackward_spec :
    ∀ (n : Nat) (b : Buf α) (p : Nat),
      (∀ i, i < n → (slot? b (p + i)).isSome = true) →
      (∀ i, i < n → (slot? b (p + 1 + i)).isSome = true) →
      ∃ b', moveBackward b p (p + 1) n = .ok b' ∧ b'.length = b.length ∧
        (∀ j, j ≤ p ∨ p + n < j → slot? b' j = slot? b j) ∧
        (∀ i, i < n → slot? b' (p + 1 + i) = slot? b (p + i)) := by
  intro n
  induction n with
  | zero =>
    intro b p _ _
    exact ⟨b, rfl, rfl, fun j _ => rfl, fun i hi => absurd hi (by omega)⟩
  | succ m ih =>
    intro b p hsrc hdst
    obtain ⟨v, hv⟩ := slot?_isSome_iff.mp (hsrc m (by omega))
    obtain ⟨w, hw⟩ := slot?_isSome_iff.mp (hdst m (by omega))
    have hdlen : p + 1 + m < b.length := slot?_lt_length hw
    have hsrc' : ∀ i, i < m → (slot? (b.set (p + 1 + m) (some v)) (p + i)).isSome = true := by
      intro i hi
      rw [slot?_set_ne (by omega)]
      exact hsrc i (by omega)
    have hdst' : ∀ i, i < m → (slot? (b.set (p + 1 + m) (some v)) (p + 1 + i)).isSome = true := by
      intro i hi
      rw [slot?_set_ne (by omega)]
      exact hdst i (by omega)
    obtain ⟨b', hok, hlen, hframe, himg⟩ := ih (b.set (p + 1 + m) (some v)) p hsrc' hdst'
    refine ⟨b', ?_, ?_, ?_, ?_⟩
    · simp only [moveBackward]
      rw [readAt_ok hv, exc_bind_ok, assignAt_ok hw v, exc_bind_ok]
      exact hok
    · rw [hlen, List.length_set]
    · intro j hj
      have h1 : slot? b' j = slot? (b.set (p + 1 + m) (some v)) j := by
        apply hframe
        omega
      rw [h1, slot?_set_ne (by omega)]
    · intro i hi
      rcases Nat.lt_or_ge i m with him | him
      · have h3 := himg i him
        rw [h3, slot?_set_ne (by omega)]
      · have hi' : i = m := by omega
        subst hi'
        have h1 : slot? b' (p + 1 + i) = slot? (b.set (p + 1 + i) (some v)) (p + 1 + i) := by
          apply hframe
          omega
        rw [h1, slot?_set_self hdlen (some v)]
        exact hv.symm

end LoopLemmas

section OpSpecs

variable {α : Type}

theorem wfLive {st : VecState α} (h : WF st) {i : Nat} (hi : i < st.size) :
    ∃ v, slot? st.buf i = some v :=
  slot?_isSome_iff.mp (h.2.1 i hi)

theorem wfDead {st : VecState α} (h : WF st) {i : Nat} (hi : st.size ≤ i) :
    slot? st.buf i = none := by
  rcases Nat.lt_or_ge i st.buf.length with hl | hl
  · exact h.2.2 i hl hi
  · exact slot?_of_le_length hl

theorem catchBlock_ok {tryRes : Except CppErr (Buf α)} {nd' : Buf α}
    (h : tryRes = .ok nd') (oldBuf : Buf α) (s l : Nat) (nd : Buf α) :
    catchBlock tryRes oldBuf s l nd = .ok (oldBuf, nd') := by
  rw [h]
  rfl

theorem Reserve_noop {st : VecState α} {newCap : Nat}
    (h : newCap ≤ st.buf.length) : Reserve st newCap = .ok st := by
  unfold Reserve
  rw [if_pos h]

theorem Reserve_grow {st : VecState α} {newCap : Nat} (hwf : WF st)
    (hgrow : st.buf.length < newCap) :
    ∃ st', Reserve st newCap = .ok st' ∧ st'.buf.length = newCap ∧
      st'.size = st.size ∧ (∀ i, slot? st'.buf i = slot? st.buf i) ∧ WF st' := by
  have hsz : st.size ≤ st.buf.length := hwf.1
  obtain ⟨nd, hrel, hndlen, hframe, himg⟩ := relocateNF_spec (fun _ => false)
    st.size st.buf 0 (List.replicate newCap (none : Option α)) 0
    (by
      intro i hi
      obtain ⟨v, hv⟩ := wfLive hwf hi
      exact ⟨v, by simpa using hv, rfl⟩)
    (by
      intro i hi
      refine ⟨?_, by simpa using slot?_replicate_none newCap i⟩
      simp only [List.length_replicate]
      omega)
  obtain ⟨ob, hdes, _, _, _⟩ := destroyN_spec st.size st.buf 0
    (by intro i hi; simpa using hwf.2.1 i hi)
  have hndlen' : nd.length = newCap := by
    rw [hndlen, List.length_replicate]
  have hall : ∀ i, slot? nd i = slot? st.buf i := by
    intro i
    rcases Nat.lt_or_ge i st.size with hi | hi
    · simpa using himg i hi
    · have h1 : slot? nd i = slot? (List.replicate newCap (none : Option α)) i :=
        hframe i (by omega)
      rw [h1, slot?_replicate_none, wfDead hwf hi]
  refine ⟨⟨nd, st.size⟩, ?_, hndlen', rfl, hall, ?_, ?_, ?_⟩
  · unfold Reserve
    rw [if_neg (by omega), hrel, exc_bind_ok, hdes, exc_bind_ok]
  · show st.size ≤ nd.length
    rw [hndlen']
    omega
  · intro i hi
    show (slot? nd i).isSome = true
    rw [hall i]
    exact hwf.2.1 i hi
  · intro i _ hi
    show slot? nd i = none
    rw [hall i]
    exact wfDead hwf hi

theorem InsertWithAlloc_spec {st : VecState α} {pos : Nat} (v : α) (hwf : WF st)
    (hpos : pos ≤ st.size) :
    ∃ b, InsertWithAllocF (fun _ => false) st pos v = .ok ⟨b, st.size⟩ ∧
      b.length = (if st.size = 0 then 1 else 2 * st.size) ∧
      (∀ i, i < pos → slot? b i = slot? st.buf i) ∧
      slot? b pos = some v ∧
      (∀ i, pos ≤ i → i < st.size → slot? b (i + 1) = slot? st.buf i) ∧
      (∀ i, st.size + 1 ≤ i → slot? b i = none) := by
  have hsz : st.size ≤ st.buf.length := hwf.1
  set cap := if st.size = 0 then 1 else 2 * st.size with hcapdef
  have hcap : st.size + 1 ≤ cap := by
    rw [hcapdef]
    split <;> omega
  have hcon : constructAtF (fun _ => false)
      (List.replicate cap (none : Option α)) pos v
      = .ok ((List.replicate cap (none : Option α)).set pos (some v)) :=
    constructAtF_false rfl
      (by simp only [List.length_replicate]; omega)
      (slot?_replicate_none _ _)
  set nd0 := (List.replicate cap (none : Option α)).set pos (some v) with hnd0
  have hnd0len : nd0.length = cap := by
    rw [hnd0, List.length_set, List.length_replicate]
  have hnd0slot : ∀ j, j ≠ pos → slot? nd0 j = none := by
    intro j hj
    rw [hnd0, slot?_set_ne (Ne.symm hj), slot?_replicate_none]
  have hnd0pos : slot? nd0 pos = some v := by
    rw [hnd0]
    exact slot?_set_self (by simp only [List.length_replicate]; omega) _
  obtain ⟨nd1, hrel1, hlen1, hframe1, himg1⟩ := relocateNF_spec (fun _ => false)
    pos st.buf 0 nd0 0
    (by
      intro i hi
      obtain ⟨w, hw⟩ := wfLive hwf (show i < st.size by omega)
      exact ⟨w, by simpa using hw, rfl⟩)
    (by
      intro i hi
      refine ⟨by rw [hnd0len]; omega, ?_⟩
      simpa using hnd0slot i (by omega))
  obtain ⟨nd2, hrel2, hlen2, hframe2, himg2⟩ := relocateNF_spec (fun _ => false)
    (st.size - pos) st.buf pos nd1 (pos + 1)
    (by
      intro i hi
      obtain ⟨w, hw⟩ := wfLive hwf (show pos + i < st.size by omega)
      exact ⟨w, hw, rfl⟩)
    (by
      intro i hi
      constructor
      · rw [hlen1, hnd0len]
        omega
      · have h1 : slot? nd1 (pos + 1 + i) = slot? nd0 (pos + 1 + i) :=
          hframe1 _ (by omega)
        rw [h1]
        exact hnd0slot _ (by omega))
  obtain ⟨ob, hdesok, _, _, _⟩ := destroyN_spec st.size st.buf 0
    (by intro i hi; simpa using hwf.2.1 i hi)
  refine ⟨nd2, ?_, ?_, ?_, ?_, ?_, ?_⟩
  · simp only [InsertWithAllocF, ← hcapdef, hcon, exc_bind_ok,
      catchBlock_ok hrel1, catchBlock_ok hrel2, hdesok]
  · rw [hlen2, hlen1, hnd0len]
  · intro i hi
    have h2 : slot? nd2 i = slot? nd1 i := hframe2 i (by omega)
    rw [h2]
    simpa using himg1 i hi
  · have h2 : slot? nd2 pos = slot? nd1 pos := hframe2 pos (by omega)
    have h1 : slot? nd1 pos = slot? nd0 pos := hframe1 pos (by omega)
    rw [h2, h1, hnd0pos]
  · intro i hip his
    have him := himg2 (i - pos) (by omega)
    have e1 : pos + 1 + (i - pos) = i + 1 := by omega
    have e2 : pos + (i - pos) = i := by omega
    rw [e1, e2] at him
    exact him
  · intro i hi
    have h2 : slot? nd2 i = slot? nd1 i := hframe2 i (by omega)
    have h1 : slot? nd1 i = slot? nd0 i := hframe1 i (by omega)
    rw [h2, h1]
    exact hnd0slot i (by omega)

theorem InsertWithoutAlloc_spec {st : VecState α} {pos : Nat} (v : α)
    (hwf : WF st) (hpos : pos ≤ st.size) (hroom : st.size < st.buf.length) :
    ∃ b, InsertWithoutAllocF (fun _ => false) st pos v = .ok ⟨b, st.size⟩ ∧
      b.length = st.buf.length ∧
      (∀ i, i < pos → slot? b i = slot? st.buf i) ∧
      slot? b pos = some v ∧
      (∀ i, pos ≤ i → i < st.size → slot? b (i + 1) = slot? st.buf i) ∧
      (∀ i, st.size + 1 ≤ i → slot? b i = none) := by
  by_cases hpe : st.size = pos
  · have hdead : slot? st.buf pos = none := wfDead hwf (by omega)
    have hcon : constructAtF (fun _ => false) st.buf pos v
        = .ok (st.buf.set pos (some v)) :=
      constructAtF_false rfl (by omega) hdead
    refine ⟨st.buf.set pos (some v), ?_, ?_, ?_, ?_, ?_, ?_⟩
    · unfold InsertWithoutAllocF
      rw [if_pos hpe, hcon, exc_bind_ok]
    · rw [List.length_set]
    · intro i hi
      rw [slot?_set_ne (by omega)]
    · exact slot?_set_self (by omega) _
    · intro i h1 h2
      exact absurd h2 (by omega)
    · intro i hi
      rw [slot?_set_ne (by omega)]
      exact wfDead hwf (by omega)
  · have hps : pos < st.size := by omega
    obtain ⟨last, hlast⟩ := wfLive hwf (show st.size - 1 < st.size by omega)
    have hconstr : constructAt st.buf st.size last
        = .ok (st.buf.set st.size (some last)) :=
      constructAt_ok (by omega) (wfDead hwf (by omega)) last
    set b1 := st.buf.set st.size (some last) with hb1
    have hb1len : b1.length = st.buf.length := by
      rw [hb1, List.length_set]
    obtain ⟨b2, hmb, hlen2, hframe, himg⟩ :=
      moveBackward_spec (st.size - 1 - pos) b1 pos
        (by
          intro i hi
          rw [hb1, slot?_set_ne (by omega)]
          exact hwf.2.1 _ (by omega))
        (by
          intro i hi
          rw [hb1, slot?_set_ne (by omega)]
          exact hwf.2.1 _ (by omega))
    obtain ⟨w, hw⟩ := wfLive hwf hps
    have hb2pos : slot? b2 pos = some w := by
      have h1 : slot? b2 pos = slot? b1 pos := hframe pos (by omega)
      rw [h1, hb1, slot?_set_ne (by omega)]
      exact hw
    have hasg : assignAt b2 pos v = .ok (b2.set pos (some v)) :=
      assignAt_ok hb2pos v
    refine ⟨b2.set pos (some v), ?_, ?_, ?_, ?_, ?_, ?_⟩
    · unfold InsertWithoutAllocF
      rw [if_neg hpe]
      simp only [Bool.false_eq_true, if_false]
      rw [if_neg (by omega : ¬st.size = 0), readAt_ok hlast, exc_bind_ok,
        hconstr, exc_bind_ok]
      rw [if_neg (by omega : ¬st.size - 1 < pos), hmb, exc_bind_ok,
        if_pos (by omega : pos < st.buf.length), hasg, exc_bind_ok]
    · rw [List.length_set, hlen2, hb1len]
    · intro i hi
      rw [slot?_set_ne (by omega)]
      have h1 : slot? b2 i = slot? b1 i := hframe i (by omega)
      rw [h1, hb1, slot?_set_ne (by omega)]
    · exact slot?_set_self (by rw [hlen2, hb1len]; omega) _
    · intro i h1 h2
      rw [slot?_set_ne (by omega)]
      rcases Nat.lt_or_ge i (st.size - 1) with hc | hc
      · have him := himg (i - pos) (by omega)
        have e1 : pos + 1 + (i - pos) = i + 1 := by omega
        have e2 : pos + (i - pos) = i := by omega
        rw [e1, e2] at him
        rw [him, hb1, slot?_set_ne (by omega)]
      · have hieq : i = st.size - 1 := by omega
        have h3 : slot? b2 (i + 1) = slot? b1 (i + 1) := hframe (i + 1) (by omega)
        have e : i + 1 = st.size := by omega
        rw [h3, hb1, e, slot?_set_self (by omega) _, hieq]
        exact hlast.symm
    · intro i hi
      rw [slot?_set_ne (by omega)]
      have h3 : slot? b2 i = slot? b1 i := hframe i (by omega)
      rw [h3, hb1, slot?_set_ne (by omega)]
      exact wfDead hwf (by omega)

theorem wf_of_insert {st : VecState α} {pos : Nat} {v : α} {b : Buf α}
    (hwf : WF st) (hpos : pos ≤ st.size) (hblen : st.size + 1 ≤ b.length)
    (hpre : ∀ i, i < pos → slot? b i = slot? st.buf i)
    (hat : slot? b pos = some v)
    (hshift : ∀ i, pos ≤ i → i < st.size → slot? b (i + 1) = slot? st.buf i)
    (hdead : ∀ i, st.size + 1 ≤ i → slot? b i = none) :
    WF (⟨b, st.size + 1⟩ : VecState α) := by
  refine ⟨hblen, ?_, ?_⟩
  · intro i hi
    have hi' : i < st.size + 1 := hi
    show (slot? b i).isSome = true
    rcases Nat.lt_trichotomy i pos with h1 | h1 | h1
    · rw [hpre i h1]
      exact hwf.2.1 i (by omega)
    · rw [h1, hat]
      rfl
    · have e : i = (i - 1) + 1 := by omega
      rw [e, hshift (i - 1) (by omega) (by omega)]
      exact hwf.2.1 (i - 1) (by omega)
  · intro i _ hi
    exact hdead i hi

theorem Emplace_spec {st : VecState α} {pos : Nat} (v : α) (hwf : WF st)
    (hpos : pos ≤ st.size) :
    ∃ st', Emplace st pos v = .ok (st', pos) ∧
      st'.size = st.size + 1 ∧
      st'.buf.length = (if st.size = st.buf.length
        then (if st.size = 0 then 1 else 2 * st.size) else st.buf.length) ∧
      (∀ i, i < pos → slot? st'.buf i = slot? st.buf i) ∧
      slot? st'.buf pos = some v ∧
      (∀ i, pos ≤ i → i < st.size → slot? st'.buf (i + 1) = slot? st.buf i) ∧
      (∀ i, st.size + 1 ≤ i → slot? st'.buf i = none) ∧
      WF st' := by
  by_cases hc : st.size = st.buf.length
  · obtain ⟨b, hins, hlen, hpre, hat, hshift, hdead⟩ :=
      InsertWithAlloc_spec v hwf hpos
    refine ⟨⟨b, st.size + 1⟩, ?_, rfl, ?_, hpre, hat, hshift, hdead, ?_⟩
    · unfold Emplace EmplaceF
      rw [if_neg (by omega), if_pos hc, hins, exc_bind_ok]
    · rw [if_pos hc]
      exact hlen
    · refine wf_of_insert hwf hpos ?_ hpre hat hshift hdead
      rw [hlen]
      split <;> omega
  · have hroom : st.size < st.buf.length := by
      have := hwf.1
      omega
    obtain ⟨b, hins, hlen, hpre, hat, hshift, hdead⟩ :=
      InsertWithoutAlloc_spec v hwf hpos hroom
    refine ⟨⟨b, st.size + 1⟩, ?_, rfl, ?_, hpre, hat, hshift, hdead, ?_⟩
    · unfold Emplace EmplaceF
      rw [if_neg (by omega), if_neg hc, hins, exc_bind_ok]
    · rw [if_neg hc]
      exact hlen
    · refine wf_of_insert hwf hpos ?_ hpre hat hshift hdead
      omega

theorem Erase_spec {st : VecState α} {pos : Nat} (hwf : WF st)
    (hpos : pos < st.size) :
    ∃ st', Erase st pos = .ok (st', pos) ∧
      st'.size = st.size - 1 ∧ st'.buf.length = st.buf.length ∧
      (∀ i, i < pos → slot? st'.buf i = slot? st.buf i) ∧
      (∀ i, pos ≤ i → i + 1 < st.size → slot? st'.buf i = slot? st.buf (i + 1)) ∧
      (∀ i, st.size - 1 ≤ i → slot? st'.buf i = none) ∧
      WF st' := by
  obtain ⟨b2, hms, hlen2, hframe, himg⟩ :=
    moveSeg_shift (st.size - (pos + 1)) st.buf pos
      (by intro i hi; exact hwf.2.1 _ (by omega))
      (by intro i hi; exact hwf.2.1 _ (by omega))
  obtain ⟨w, hw⟩ := wfLive hwf (show st.size - 1 < st.size by omega)
  have hlast2 : slot? b2 (st.size - 1) = some w := by
    have h1 : slot? b2 (st.size - 1) = slot? st.buf (st.size - 1) :=
      hframe _ (by omega)
    rw [h1]
    exact hw
  obtain ⟨b3, hdes, hlen3, hframe3, hdead3⟩ := destroyN_spec 1 b2 (st.size - 1)
    (by
      intro i hi
      have hi0 : i = 0 := by omega
      subst hi0
      simp only [Nat.add_zero]
      rw [hlast2]
      rfl)
  have hpre : ∀ i, i < pos → slot? b3 i = slot? st.buf i := by
    intro i hi
    have h3 : slot? b3 i = slot? b2 i := hframe3 i (by omega)
    rw [h3]
    exact hframe i (by omega)
  have hshift : ∀ i, pos ≤ i → i + 1 < st.size →
      slot? b3 i = slot? st.buf (i + 1) := by
    intro i h1 h2
    have h3 : slot? b3 i = slot? b2 i := hframe3 i (by omega)
    rw [h3]
    have him := himg (i - pos) (by omega)
    have e1 : pos + (i - pos) = i := by omega
    have e2 : pos + 1 + (i - pos) = i + 1 := by omega
    rw [e1, e2] at him
    exact him
  have hdead : ∀ i, st.size - 1 ≤ i → slot? b3 i = none := by
    intro i hi
    rcases Nat.lt_or_ge i st.buf.length with hil | hil
    · rcases Nat.eq_or_lt_of_le hi with he | hlt
      · rw [← he]
        simpa using hdead3 0 (by omega)
      · have h3 : slot? b3 i = slot? b2 i := hframe3 i (by omega)
        have h2' : slot? b2 i = slot? st.buf i := hframe i (by omega)
        rw [h3, h2']
        exact wfDead hwf (by omega)
    · exact slot?_of_le_length (by rw [hlen3, hlen2]; omega)
  refine ⟨⟨b3, st.size - 1⟩, ?_, rfl, ?_, hpre, hshift, hdead, ?_, ?_, ?_⟩
  · unfold Erase moveRange
    rw [if_neg (by omega), hms, exc_bind_ok, hdes, exc_bind_ok]
  · rw [hlen3, hlen2]
  · show st.size - 1 ≤ b3.length
    rw [hlen3, hlen2]
    have := hwf.1
    omega
  · intro i hi
    have hi' : i < st.size - 1 := hi
    show (slot? b3 i).isSome = true
    rcases Nat.lt_or_ge i pos with h1 | h1
    · rw [hpre i h1]
      exact hwf.2.1 i (by omega)
    · rw [hshift i h1 (by omega)]
      exact hwf.2.1 (i + 1) (by omega)
  · intro i _ hi
    exact hdead i hi

end OpSpecs

section Claims

/-- Claim C1 (refuted by the code — evidence of the bug): `Resize` is claimed
to leave `size() == newSize` with the old elements unchanged and, when
growing, the newly exposed slots `[oldSize, newSize)` value-initialized.  In
the source the growth branch value-constructs starting at
`data_.GetAddress()` — slot 0, over the live elements — instead of at offset
`size_`, and the shrink branch's count `size_ - new_size` underflows when
`size < newSize ≤ capacity`.  Both evaluations below run a vector holding the
single element 5 through `Resize 2`; the claim requires success with element
0 still equal to 5, but the code reaches undefined behaviour. -/
theorem resize_misconstructs_on_grow :
    Resize (⟨[some 5], 1⟩ : VecState Nat) 2 = .error .ub ∧
    Resize (⟨[some 5, none], 1⟩ : VecState Nat) 2 = .error .ub := by
  constructor
  · rfl
  · have hda : destroyAt ([some 5, none] : Buf Nat) 2 = .error .ub := rfl
    have hd : destroyN ([some 5, none] : Buf Nat) 2 ((1 + W - 2) % W)
        = .error .ub := destroyN_err hda (by decide)
    show (do
        let b ← destroyN ([some 5, none] : Buf Nat) 2 ((1 + W - 2) % W)
        Except.ok (⟨b, 2⟩ : VecState Nat)) = Except.error CppErr.ub
    rw [hd, exc_bind_err]

/-- Claim C2 (refuted by the code — evidence of the bug): the claim says that
when relocation fails partway during a reallocating `Emplace`, the partial
segment in the new buffer is destroyed and the error propagates to the
caller.  The partial-destruction half is performed inside the standard
relocation primitive, but the source's `catch (...)` handlers destroy the
source segment, do not rethrow, and fall through into
`destroy_n(begin(), size_)`, which double-destroys those slots.  Evaluating a
full one-element vector `[5]` through `Emplace(end(), 7)` with an element
type whose copy of `5` throws: the thrown error never reaches the caller
(the run ends in undefined behaviour from the double destruction instead). -/
theorem emplace_realloc_swallows_failure :
    EmplaceF (fun x => x == 5) (⟨[some 5], 1⟩ : VecState Nat) 1 7
      = .error .ub ∧
    (Except.error CppErr.ub : Except CppErr (VecState Nat × Nat))
      ≠ .error .thrown := by
  refine ⟨rfl, ?_⟩
  intro h
  exact absurd (Except.error.inj h) (by decide)

/-- Claim C3: for a well-formed vector and any position `0 ≤ pos ≤ size`,
`Insert`/`Emplace` place an element equal to `v` at index `pos`, leave the
elements previously at `[pos, size)` unchanged at `[pos + 1, size + 1)`,
leave the prefix `[0, pos)` unchanged, increase the size by exactly one, and
return the address of the new element (`begin() + pos`). -/
theorem emplace_inserts_at_pos {α : Type} (st : VecState α) (pos : Nat)
    (v : α) (hwf : WF st) (hpos : pos ≤ st.size) :
    Insert st pos v = Emplace st pos v ∧
    ∃ st', Emplace st pos v = .ok (st', pos) ∧
      st'.size = st.size + 1 ∧
      (∀ i, i < pos → slot? st'.buf i = slot? st.buf i) ∧
      slot? st'.buf pos = some v ∧
      (∀ i, pos ≤ i → i < st.size → slot? st'.buf (i + 1) = slot? st.buf i) := by
  obtain ⟨st', hok, hsz, _, hpre, hat, hshift, _, _⟩ := Emplace_spec v hwf hpos
  exact ⟨rfl, st', hok, hsz, hpre, hat, hshift⟩

/-- Concrete run of `emplace_inserts_at_pos`: inserting 99 at position 1 of
the full two-element vector `[10, 20]`. -/
theorem emplace_inserts_at_pos_witness :
    WF (⟨[some 10, some 20], 2⟩ : VecState Nat) ∧ 1 ≤ 2 ∧
    (Insert (⟨[some 10, some 20], 2⟩ : VecState Nat) 1 99
        = Emplace (⟨[some 10, some 20], 2⟩ : VecState Nat) 1 99 ∧
      ∃ st', Emplace (⟨[some 10, some 20], 2⟩ : VecState Nat) 1 99
          = .ok (st', 1) ∧
        st'.size = 2 + 1 ∧
        (∀ i, i < 1 → slot? st'.buf i = slot? ([some 10, some 20] : Buf Nat) i) ∧
        slot? st'.buf 1 = some 99 ∧
        (∀ i, 1 ≤ i → i < 2 →
          slot? st'.buf (i + 1) = slot? ([some 10, some 20] : Buf Nat) i)) :=
  ⟨by decide, by decide,
    emplace_inserts_at_pos (⟨[some 10, some 20], 2⟩ : VecState Nat) 1 99
      (by decide) (by decide)⟩

/-- Claim C4: for a well-formed vector with `pos < size`, `Erase` shifts the
elements previously at `[pos + 1, size)` one slot left onto `[pos, size - 1)`
unchanged, destroys the vacated last slot, decrements the size by exactly
one, and leaves the prefix `[0, pos)` unchanged. -/
theorem erase_shifts_left {α : Type} (st : VecState α) (pos : Nat)
    (hwf : WF st) (hpos : pos < st.size) :
    ∃ st', Erase st pos = .ok (st', pos) ∧
      st'.size = st.size - 1 ∧
      (∀ i, i < pos → slot? st'.buf i = slot? st.buf i) ∧
      (∀ i, pos ≤ i → i + 1 < st.size → slot? st'.buf i = slot? st.buf (i + 1)) ∧
      slot? st'.buf (st.size - 1) = none := by
  obtain ⟨st', hok, hsz, _, hpre, hshift, hdead, _⟩ := Erase_spec hwf hpos
  exact ⟨st', hok, hsz, hpre, hshift, hdead (st.size - 1) (Nat.le_refl _)⟩

/-- Concrete run of `erase_shifts_left`: erasing position 1 of `[1, 2, 3]`. -/
theorem erase_shifts_left_witness :
    WF (⟨[some 1, some 2, some 3], 3⟩ : VecState Nat) ∧ 1 < 3 ∧
    (∃ st', Erase (⟨[some 1, some 2, some 3], 3⟩ : VecState Nat) 1
        = .ok (st', 1) ∧
      st'.size = 3 - 1 ∧
      (∀ i, i < 1 → slot? st'.buf i
        = slot? ([some 1, some 2, some 3] : Buf Nat) i) ∧
      (∀ i, 1 ≤ i → i + 1 < 3 → slot? st'.buf i
        = slot? ([some 1, some 2, some 3] : Buf Nat) (i + 1)) ∧
      slot? st'.buf (3 - 1) = none) :=
  ⟨by decide, by decide,
    erase_shifts_left (⟨[some 1, some 2, some 3], 3⟩ : VecState Nat) 1
      (by decide) (by decide)⟩

/-- Claim C5: inserting `v` at a valid position and then erasing that same
position restores the element sequence exactly. -/
theorem insert_erase_roundtrip {α : Type} (st : VecState α) (pos : Nat)
    (v : α) (hwf : WF st) (hpos : pos ≤ st.size) :
    ∃ st1 st2, Insert st pos v = .ok (st1, pos) ∧
      Erase st1 pos = .ok (st2, pos) ∧ st2.size = st.size ∧
      seqOf st2 = seqOf st := by
  obtain ⟨st1, hok1, hsz1, _, hpre1, hat1, hshift1, _, hwf1⟩ :=
    Emplace_spec v hwf hpos
  have hpos1 : pos < st1.size := by omega
  obtain ⟨st2, hok2, hsz2, _, hpre2, hshift2, _, _⟩ := Erase_spec hwf1 hpos1
  have hsz : st2.size = st.size := by omega
  refine ⟨st1, st2, hok1, hok2, hsz, ?_⟩
  unfold seqOf
  rw [hsz]
  apply List.map_congr_left
  intro i hi
  rw [List.mem_range] at hi
  rcases Nat.lt_or_ge i pos with h1 | h1
  · rw [hpre2 i h1, hpre1 i h1]
  · rw [hshift2 i h1 (by omega), hshift1 i h1 (by omega)]

/-- Concrete run of `insert_erase_roundtrip`: `[7, 8]` at full capacity,
insert 42 at position 1 (forcing a reallocation), then erase position 1. -/
theorem insert_erase_roundtrip_witness :
    WF (⟨[some 7, some 8], 2⟩ : VecState Nat) ∧ 1 ≤ 2 ∧
    (∃ st1 st2, Insert (⟨[some 7, some 8], 2⟩ : VecState Nat) 1 42
        = .ok (st1, 1) ∧
      Erase st1 1 = .ok (st2, 1) ∧ st2.size = 2 ∧
      seqOf st2 = seqOf (⟨[some 7, some 8], 2⟩ : VecState Nat)) :=
  ⟨by decide, by decide,
    insert_erase_roundtrip (⟨[some 7, some 8], 2⟩ : VecState Nat) 1 42
      (by decide) (by decide)⟩

/-- Claim C6: appending to a full vector (`size == capacity`) through
`PushBack`/`EmplaceBack` grows the capacity to `max(1, 2 * oldCapacity)`,
constructs the new element at slot `oldSize`, and increments the size by
one. -/
theorem pushBack_full_doubles {α : Type} (st : VecState α) (v : α)
    (hwf : WF st) (hfull : st.size = st.buf.length) :
    PushBack st v = EmplaceBack st v ∧
    ∃ st', EmplaceBack st v = .ok (st', st.size) ∧
      st'.buf.length = max 1 (2 * st.buf.length) ∧
      st'.size = st.size + 1 ∧
      slot? st'.buf st.size = some v := by
  obtain ⟨st', hok, hsz, hlen, _, hat, _, _, _⟩ :=
    Emplace_spec v hwf (Nat.le_refl st.size)
  refine ⟨rfl, st', hok, ?_, hsz, hat⟩
  rw [hlen, if_pos hfull]
  split <;> omega

/-- Concrete run of `pushBack_full_doubles`: appending 4 to the full
one-element vector `[3]`; the capacity doubles from 1 to 2. -/
theorem pushBack_full_doubles_witness :
    WF (⟨[some 3], 1⟩ : VecState Nat) ∧ (1 = 1) ∧
    (PushBack (⟨[some 3], 1⟩ : VecState Nat) 4
        = EmplaceBack (⟨[some 3], 1⟩ : VecState Nat) 4 ∧
      ∃ st', EmplaceBack (⟨[some 3], 1⟩ : VecState Nat) 4 = .ok (st', 1) ∧
        st'.buf.length = max 1 (2 * 1) ∧
        st'.size = 1 + 1 ∧
        slot? st'.buf 1 = some 4) :=
  ⟨by decide, rfl,
    pushBack_full_doubles (⟨[some 3], 1⟩ : VecState Nat) 4 (by decide) rfl⟩

/-- Claim C7: `Reserve` is a no-op when the requested capacity does not
exceed the current one; otherwise it sets the capacity to exactly the
request while preserving the size and every element; consequently it never
decreases the capacity. -/
theorem reserve_noop_or_grows {α : Type} (st : VecState α) (newCap : Nat)
    (hwf : WF st) :
    (newCap ≤ st.buf.length → Reserve st newCap = .ok st) ∧
    (st.buf.length < newCap → ∃ st', Reserve st newCap = .ok st' ∧
      st'.buf.length = newCap ∧ st'.size = st.size ∧
      (∀ i, slot? st'.buf i = slot? st.buf i)) ∧
    (∀ st', Reserve st newCap = .ok st' → st.buf.length ≤ st'.buf.length) := by
  refine ⟨fun h => Reserve_noop h, fun h => ?_, ?_⟩
  · obtain ⟨st', hok, hlen, hsz, hall, _⟩ := Reserve_grow hwf h
    exact ⟨st', hok, hlen, hsz, hall⟩
  · intro st' h
    rcases Nat.lt_or_ge st.buf.length newCap with hlt | hle
    · obtain ⟨st'', hok, hlen, _, _, _⟩ := Reserve_grow hwf hlt
      rw [hok] at h
      have he : st'' = st' := Except.ok.inj h
      rw [← he, hlen]
      omega
    · rw [Reserve_noop hle] at h
      have he : st = st' := Except.ok.inj h
      cases he
      exact Nat.le_refl _

/-- Concrete run of `reserve_noop_or_grows`: a vector of size 1 and
capacity 3. -/
theorem reserve_noop_or_grows_witness :
    WF (⟨[some 9, none, none], 1⟩ : VecState Nat) ∧
    ((5 ≤ 3 → Reserve (⟨[some 9, none, none], 1⟩ : VecState Nat) 5
        = .ok (⟨[some 9, none, none], 1⟩ : VecState Nat)) ∧
      (3 < 5 → ∃ st', Reserve (⟨[some 9, none, none], 1⟩ : VecState Nat) 5
          = .ok st' ∧
        st'.buf.length = 5 ∧ st'.size = 1 ∧
        (∀ i, slot? st'.buf i = slot? ([some 9, none, none] : Buf Nat) i)) ∧
      (∀ st', Reserve (⟨[some 9, none, none], 1⟩ : VecState Nat) 5 = .ok st' →
        3 ≤ st'.buf.length)) :=
  ⟨by decide,
    reserve_noop_or_grows (⟨[some 9, none, none], 1⟩ : VecState Nat) 5
      (by decide)⟩

/-- Claim C8: move construction and move assignment transfer the buffer and
the size to the destination — the destination holds the source's prior
elements, with the very same buffer rather than element copies — and leave
the source logically empty: `size = 0` and an empty buffer of capacity 0. -/
theorem move_transfers_and_empties {α : Type} (other self : VecState α) :
    (moveCtor other).1.buf = other.buf ∧
    (moveCtor other).1.size = other.size ∧
    seqOf (moveCtor other).1 = seqOf other ∧
    (moveCtor other).2.size = 0 ∧
    (moveCtor other).2.buf.length = 0 ∧
    (moveAssign self other).1.buf = other.buf ∧
    (moveAssign self other).1.size = other.size ∧
    seqOf (moveAssign self other).1 = seqOf other ∧
    (moveAssign self other).2.size = 0 ∧
    (moveAssign self other).2.buf.length = 0 :=
  ⟨rfl, rfl, rfl, rfl, rfl, rfl, rfl, rfl, rfl, rfl⟩

/-- Claim C9 (counterexample): the claim says every precondition violation —
including `PopBack` on an empty vector — fails a debug assertion.  `PopBack`
contains no assertion at all: on the empty vector the run reaches undefined
behaviour (`ub`), not an assertion failure. -/
theorem popBack_empty_is_ub_not_assert :
    PopBack (vecNew Nat) = .error .ub ∧
    (Except.error CppErr.ub : Except CppErr (VecState Nat))
      ≠ .error .assertFail := by
  refine ⟨rfl, ?_⟩
  intro h
  exact absurd (Except.error.inj h) (by decide)

/-- Claim C9 (amended): only indexed access is guarded by an assertion
(`assert(index < size_)` in `operator[]`), and it fails for every index not
below the size; `PopBack` on an empty vector and `Erase`/`Emplace` with an
out-of-range position have no assertion check — they are undefined behaviour
even in debug builds. -/
theorem only_indexed_access_asserts :
    (∀ (α : Type) (st : VecState α) (i : Nat), st.size ≤ i →
      getIdx st i = .error .assertFail) ∧
    PopBack (vecNew Nat) = .error .ub ∧
    Erase (⟨[some 1], 1⟩ : VecState Nat) 1 = .error .ub ∧
    Emplace (⟨[some 1, none], 1⟩ : VecState Nat) 2 5 = .error .ub := by
  refine ⟨?_, rfl, rfl, rfl⟩
  intro α st i h
  unfold getIdx
  rw [if_neg (by omega)]

/-- Concrete run of `only_indexed_access_asserts`: index 5 on a vector of
size 1 fails the assertion. -/
theorem only_indexed_access_asserts_witness :
    getIdx (⟨[some 3], 1⟩ : VecState Nat) 5 = .error .assertFail :=
  only_indexed_access_asserts.1 Nat (⟨[some 3], 1⟩ : VecState Nat) 5
    (by decide)

/-- Claim C10: for a well-formed vector and `pos < size`, `Erase` returns
`begin() + pos` — modelled as the index `pos` — which is a valid position of
the shrunken vector (it equals `end()` exactly when the last element was
erased) and, when an element followed the erased one, now holds that
element. -/
theorem erase_returns_begin_plus_pos {α : Type} (st : VecState α) (pos : Nat)
    (hwf : WF st) (hpos : pos < st.size) :
    ∃ st', Erase st pos = .ok (st', pos) ∧ pos ≤ st'.size ∧
      (pos + 1 = st.size → pos = st'.size) ∧
      (pos + 1 < st.size → slot? st'.buf pos = slot? st.buf (pos + 1)) := by
  obtain ⟨st', hok, hsz, _, _, hshift, _, _⟩ := Erase_spec hwf hpos
  refine ⟨st', hok, by omega, by omega, ?_⟩
  intro h
  exact hshift pos (Nat.le_refl _) h

/-- Concrete run of `erase_returns_begin_plus_pos`: erasing position 0 of
`[4, 5]` returns position 0, which now holds the element 5. -/
theorem erase_returns_begin_plus_pos_witness :
    WF (⟨[some 4, some 5], 2⟩ : VecState Nat) ∧ 0 < 2 ∧
    (∃ st', Erase (⟨[some 4, some 5], 2⟩ : VecState Nat) 0 = .ok (st', 0) ∧
      0 ≤ st'.size ∧
      (0 + 1 = 2 → 0 = st'.size) ∧
      (0 + 1 < 2 → slot? st'.buf 0 = slot? ([some 4, some 5] : Buf Nat) (0 + 1))) :=
  ⟨by decide, by decide,
    erase_returns_begin_plus_pos (⟨[some 4, some 5], 2⟩ : VecState Nat) 0
      (by decide) (by decide)⟩

end Claims

end AdvVec
